import Mathlib

/-!
Shallow embedding of the libclang-backed token iterator
(src/token_iterator.cpp).

Modelling choices:
* A source location (CXSourceLocation, resolved through
  clang_getSpellingLocation) is a pair of a file handle and a byte offset.
* A token (CXToken together with its clang_getTokenExtent) is its extent:
  a start location and an end location. clang_equalLocations is equality
  of the resolved pairs.
* The lexer backing one translation unit is an abstract oracle: a
  location-to-token map (clang_getToken), a byte whitespace predicate
  (std.isspace over the buffer from clang_getFileContents) and the file
  size. An environment maps translation-unit identities to lexers.
* The iterator state m_tok is an optional pair of the translation-unit
  identity (held by the token_deleter) and the token; the empty optional
  is the end sentinel.
* Debug-build assertion failures (assert in the C++ source) are modelled
  by returning none from the stepping operations.
* Every clang_getToken query an operation issues is also accumulated in a
  list of queried locations, so that query counts and the files probed
  can be stated; the un-instrumented operations are the first projection.
-/

/-- A resolved source location: file handle plus byte offset. -/
structure Loc where
  file : Nat
  off : Nat
deriving DecidableEq

/-- A token, identified by its extent; tstart and tend mirror
clang_getRangeStart / clang_getRangeEnd of clang_getTokenExtent. -/
structure Token where
  tstart : Loc
  tend : Loc
deriving DecidableEq

/-- The lexer oracle backing one translation unit. -/
structure Lexer where
  fileSize : Nat → Nat
  ws : Nat → Nat → Bool
  tokenAt : Loc → Option Token

/-- The iterator state: none is the end sentinel; otherwise the
translation-unit identity (kept in the token_deleter) and the token. -/
structure token_iterator where
  m_tok : Option (Nat × Token)
deriving DecidableEq

/-- Construction from a translation unit and a location (the constructor
taking CXTranslationUnit and a cursor_location): clang_getToken at the
location; a null token yields the end sentinel. -/
def mkTokenIterator (env : Nat → Lexer) (tu : Nat) (loc : Loc) : token_iterator :=
  ⟨((env tu).tokenAt loc).map (fun t => (tu, t))⟩

/-- Whether the iterator is the end sentinel (is_end_sentinel). -/
def is_end_sentinel (it : token_iterator) : Bool :=
  it.m_tok.isNone

/-- The clone helper: the sentinel clones to the sentinel; otherwise the
lexer is re-queried at the start location of the current extent. -/
def clone (env : Nat → Lexer) (it : token_iterator) : token_iterator :=
  match it.m_tok with
  | none => ⟨none⟩
  | some (tu, t) => ⟨((env tu).tokenAt t.tstart).map (fun t2 => (tu, t2))⟩

/-- The copy constructor: m_tok is initialised from other.clone(). -/
def copyCtor (env : Nat → Lexer) (other : token_iterator) : token_iterator :=
  clone env other

/-- Copy assignment: the new state of the left-hand side is other.clone()
(the previously held token is released by the unique_ptr assignment). -/
def copyAssign (env : Nat → Lexer) (_this other : token_iterator) : token_iterator :=
  clone env other

/-- The equality operator: cursors with different sentinel-ness are
unequal; two sentinels are equal; otherwise the translation units and the
end locations of the extents are compared. -/
def iterEq (a b : token_iterator) : Bool :=
  match a.m_tok, b.m_tok with
  | none, none => true
  | some (tua, ta), some (tub, tb) => decide (tua = tub ∧ ta.tend = tb.tend)
  | _, _ => false

/-- The forward step, instrumented with the list of queried locations.
None models the assertion failure on the sentinel; otherwise the lexer is
queried once at the end location of the current extent and the result
(possibly null, giving the sentinel) replaces the token. -/
def opIncLog (env : Nat → Lexer) (it : token_iterator) : Option token_iterator × List Loc :=
  match it.m_tok with
  | none => (none, [])
  | some (tu, t) =>
    let prevEnd := t.tend
    (some ⟨((env tu).tokenAt prevEnd).map (fun t2 => (tu, t2))⟩, [prevEnd])

/-- The forward step (operator++). -/
def opInc (env : Nat → Lexer) (it : token_iterator) : Option token_iterator :=
  (opIncLog env it).1

/-- Step 1 of the reverse step: starting from the current start offset,
decrement; whitespace bytes are skipped without a query; otherwise the
lexer is queried at the offset, and the loop stops at the first token
whose extent end differs from the current end. The argument is the offset
value before the decrement; reaching 0 without stopping models the
assertion failure of the loop (assert of a positive offset). Returns the
stopping offset with its token, and the queried locations. -/
def phase1 (L : Lexer) (file : Nat) (currEnd : Loc) : Nat → Option (Nat × Token) × List Loc
  | 0 => (none, [])
  | o + 1 =>
    if L.ws file o then
      phase1 L file currEnd o
    else
      match L.tokenAt ⟨file, o⟩ with
      | some t =>
        if t.tend = currEnd then
          let r := phase1 L file currEnd o
          (r.1, ⟨file, o⟩ :: r.2)
        else
          (some (o, t), [⟨file, o⟩])
      | none =>
        let r := phase1 L file currEnd o
        (r.1, ⟨file, o⟩ :: r.2)

/-- Length of the longest suffix of the byte range from 0 (inclusive) to
the argument (exclusive) consisting of non-whitespace bytes: the distance
from the reverse begin of the span to the first whitespace byte found
scanning backwards. -/
def nonWsSuffixLen (L : Lexer) (file : Nat) : Nat → Nat
  | 0 => 0
  | p + 1 => if L.ws file p then 0 else nonWsSuffixLen L file p + 1

/-- The consider_next_candidate helper of step 2: query the lexer at the
given offset; if a token comes back and its extent end equals the
discriminator end, it replaces the best candidate and the probe succeeds;
otherwise the best candidate is kept and the probe fails. -/
def consider (L : Lexer) (file : Nat) (candEnd : Loc) (q : Nat) (best : Token) : Bool × Token :=
  match L.tokenAt ⟨file, q⟩ with
  | some t => if t.tend = candEnd then (true, t) else (false, best)
  | none => (false, best)

/-- The binary-search loop of step 2 over the span starting at offset lo
of length len: probe the middle; on success keep searching the left half
with the new candidate, on failure the right half past the middle. The
fuel argument only bounds the recursion; the loop is entered with fuel
equal to the initial length, which suffices because the length strictly
decreases on every iteration, so the fuel-exhausted branch is never the
one that decides the result. Also returns the queried locations. -/
def bsearchLoop (L : Lexer) (file : Nat) (candEnd : Loc) :
    Nat → Nat → Nat → Token → Token × List Loc
  | 0, _, _, best => (best, [])
  | fuel + 1, lo, len, best =>
    if len = 0 then
      (best, [])
    else
      let mid := len / 2
      let c := consider L file candEnd (lo + mid) best
      let r :=
        if c.1 then bsearchLoop L file candEnd fuel lo mid c.2
        else bsearchLoop L file candEnd fuel (lo + mid + 1) (len - (mid + 1)) c.2
      (r.1, ⟨file, lo + mid⟩ :: r.2)

/-- Step 2 of the reverse step: the search span is the byte range from 0
up to the stopping offset p (exclusive), restricted to its longest
non-whitespace suffix. An empty span means a one-character token: the
step-1 candidate stands. Otherwise the first byte of the suffix is probed
first as a heuristic; on failure that byte is dropped and the binary
search runs over the rest. Returns the adopted token and the queried
locations. -/
def phase2 (L : Lexer) (file : Nat) (candEnd : Loc) (p : Nat) (cand : Token) :
    Token × List Loc :=
  let strLen := nonWsSuffixLen L file p
  let w := p - strLen
  if strLen = 0 then
    (cand, [])
  else
    let c := consider L file candEnd w cand
    if c.1 then
      (c.2, [⟨file, w⟩])
    else
      let r := bsearchLoop L file candEnd (strLen - 1) (w + 1) (strLen - 1) c.2
      (r.1, ⟨file, w⟩ :: r.2)

/-- The reverse step, instrumented with the list of queried locations.
None models a debug-build assertion failure: on the sentinel, at start
offset 0, when the start offset is not below the file size, or when the
step-1 loop runs past offset 0. Otherwise both phases run in the file of
the current start location and the adopted token replaces the current
one. -/
def opDecLog (env : Nat → Lexer) (it : token_iterator) : Option token_iterator × List Loc :=
  match it.m_tok with
  | none => (none, [])
  | some (tu, t) =>
    let L := env tu
    let currEnd := t.tend
    let file := t.tstart.file
    let offset := t.tstart.off
    if offset = 0 then (none, [])
    else if L.fileSize file ≤ offset then (none, [])
    else
      match phase1 L file currEnd offset with
      | (none, qs) => (none, qs)
      | (some (p, cand), qs) =>
        let r := phase2 L file cand.tend p cand
        (some ⟨some (tu, r.1)⟩, qs ++ r.2)

/-- The reverse step (operator--). -/
def opDec (env : Nat → Lexer) (it : token_iterator) : Option token_iterator :=
  (opDecLog env it).1

/-- Whether the oracle, at the given offset of the given file, yields a
token whose extent end equals the given end location: membership in that
token for the purposes of the step-2 search. -/
def inTokB (L : Lexer) (file : Nat) (e : Loc) (q : Nat) : Bool :=
  match L.tokenAt ⟨file, q⟩ with
  | some t => t.tend == e
  | none => false

/-! Concrete lexers used to evaluate the development on closed inputs. -/

/-- The first token of the two-token file with bytes a, space, b. -/
def tokA : Token := ⟨⟨0, 0⟩, ⟨0, 1⟩⟩

/-- The second token of the two-token file with bytes a, space, b. -/
def tokB : Token := ⟨⟨0, 2⟩, ⟨0, 3⟩⟩

/-- Oracle for the file with bytes a, space, b: a query inside a token
yields that token, and a query in the gap yields the following token. -/
def abLexer : Lexer where
  fileSize := fun _ => 3
  ws := fun _ o => o == 1
  tokenAt := fun l =>
    if l.file = 0 then
      if l.off = 0 then some tokA
      else if l.off ≤ 2 then some tokB
      else none
    else none

/-- Environment whose every translation unit is the a-space-b lexer. -/
def abEnv : Nat → Lexer := fun _ => abLexer

/-- First token of the scenario file a, space, space, plus, space, space, b. -/
def s2a : Token := ⟨⟨0, 0⟩, ⟨0, 1⟩⟩

/-- Middle token of the scenario file a, space, space, plus, space, space, b. -/
def s2plus : Token := ⟨⟨0, 3⟩, ⟨0, 4⟩⟩

/-- Last token of the scenario file a, space, space, plus, space, space, b. -/
def s2b : Token := ⟨⟨0, 6⟩, ⟨0, 7⟩⟩

/-- Oracle for the scenario file a, space, space, plus, space, space, b. -/
def s2Lexer : Lexer where
  fileSize := fun _ => 7
  ws := fun _ o => o == 1 || o == 2 || o == 4 || o == 5
  tokenAt := fun l =>
    if l.file = 0 then
      if l.off = 0 then some s2a
      else if l.off ≤ 3 then some s2plus
      else if l.off ≤ 6 then some s2b
      else none
    else none

/-- Environment whose every translation unit is the scenario lexer. -/
def s2Env : Nat → Lexer := fun _ => s2Lexer

/-! Computation lemmas: one per branch of the stepping loops. -/

/-- Step-1 loop on a whitespace byte: skip without querying. -/
lemma phase1_succ_ws (L : Lexer) (file : Nat) (currEnd : Loc) (o : Nat)
    (h : L.ws file o = true) :
    phase1 L file currEnd (o + 1) = phase1 L file currEnd o := by
  rw [phase1, if_pos h]

/-- Step-1 loop stopping: a non-whitespace byte whose token has a
different extent end. -/
lemma phase1_succ_stop (L : Lexer) (file : Nat) (currEnd : Loc) (o : Nat) (t : Token)
    (hws : L.ws file o = false) (htok : L.tokenAt ⟨file, o⟩ = some t)
    (hne : t.tend ≠ currEnd) :
    phase1 L file currEnd (o + 1) = (some (o, t), [⟨file, o⟩]) := by
  rw [phase1, if_neg (by simp [hws]), htok]
  simp [hne]

/-- Step-1 loop continuing past a queried byte: either no token came back
or the token's extent end is still the current end. -/
lemma phase1_succ_cont (L : Lexer) (file : Nat) (currEnd : Loc) (o : Nat)
    (hws : L.ws file o = false)
    (hskip : L.tokenAt ⟨file, o⟩ = none ∨
      ∃ t, L.tokenAt ⟨file, o⟩ = some t ∧ t.tend = currEnd) :
    phase1 L file currEnd (o + 1) =
      ((phase1 L file currEnd o).1, ⟨file, o⟩ :: (phase1 L file currEnd o).2) := by
  rw [phase1, if_neg (by simp [hws])]
  rcases hskip with h | ⟨t, ht, he⟩
  · rw [h]
  · rw [ht]
    simp [he]

/-- A probe that fails keeps the best candidate. -/
lemma consider_snd_of_miss (L : Lexer) (file : Nat) (candEnd : Loc) (q : Nat) (best : Token)
    (h : (consider L file candEnd q best).1 = false) :
    (consider L file candEnd q best).2 = best := by
  unfold consider at h ⊢
  cases htok : L.tokenAt ⟨file, q⟩ with
  | none => rfl
  | some t =>
    by_cases he : t.tend = candEnd
    · simp [htok, he] at h
    · simp [htok, he]

/-- A probe succeeds exactly when the oracle yields a token with the
discriminator end, and then that token becomes the best candidate. -/
lemma consider_of_inTokB (L : Lexer) (file : Nat) (candEnd : Loc) (q : Nat) (best : Token) :
    (inTokB L file candEnd q = true →
      ∃ t, L.tokenAt ⟨file, q⟩ = some t ∧ t.tend = candEnd ∧
        consider L file candEnd q best = (true, t)) ∧
    (inTokB L file candEnd q = false → consider L file candEnd q best = (false, best)) := by
  unfold inTokB consider
  cases L.tokenAt ⟨file, q⟩ with
  | none => simp
  | some t =>
    by_cases he : t.tend = candEnd <;> simp [he]

/-- The binary-search loop on the empty span returns the best candidate. -/
lemma bsearchLoop_zero_len (L : Lexer) (file : Nat) (candEnd : Loc) (fuel lo : Nat)
    (best : Token) :
    bsearchLoop L file candEnd fuel lo 0 best = (best, []) := by
  cases fuel with
  | zero => rfl
  | succ n => rw [bsearchLoop, if_pos rfl]

/-- The binary-search loop, non-empty span, successful middle probe:
narrow to the left half with the probed token as best candidate. -/
lemma bsearchLoop_succ_hit (L : Lexer) (file : Nat) (candEnd : Loc) (fuel lo len : Nat)
    (best t : Token) (hlen : len ≠ 0)
    (hc : consider L file candEnd (lo + len / 2) best = (true, t)) :
    bsearchLoop L file candEnd (fuel + 1) lo len best =
      ((bsearchLoop L file candEnd fuel lo (len / 2) t).1,
       ⟨file, lo + len / 2⟩ :: (bsearchLoop L file candEnd fuel lo (len / 2) t).2) := by
  rw [bsearchLoop, if_neg hlen]
  simp only [hc]
  simp

/-- The binary-search loop, non-empty span, failed middle probe: narrow
to the right half past the middle, keeping the best candidate. -/
lemma bsearchLoop_succ_miss (L : Lexer) (file : Nat) (candEnd : Loc) (fuel lo len : Nat)
    (best : Token) (hlen : len ≠ 0)
    (hc : consider L file candEnd (lo + len / 2) best = (false, best)) :
    bsearchLoop L file candEnd (fuel + 1) lo len best =
      ((bsearchLoop L file candEnd fuel (lo + len / 2 + 1) (len - (len / 2 + 1)) best).1,
       ⟨file, lo + len / 2⟩ ::
         (bsearchLoop L file candEnd fuel (lo + len / 2 + 1) (len - (len / 2 + 1)) best).2) := by
  rw [bsearchLoop, if_neg hlen]
  simp only [hc]
  simp

/-- Step 2 with an empty non-whitespace suffix (one-character token): the
step-1 candidate stands, with no further queries. -/
lemma phase2_empty (L : Lexer) (file : Nat) (candEnd : Loc) (p : Nat) (cand : Token)
    (h : nonWsSuffixLen L file p = 0) :
    phase2 L file candEnd p cand = (cand, []) := by
  simp only [phase2, h]
  simp

/-- Step 2 when the heuristic first probe succeeds. -/
lemma phase2_hit (L : Lexer) (file : Nat) (candEnd : Loc) (p : Nat) (cand t : Token)
    (h : nonWsSuffixLen L file p ≠ 0)
    (hc : consider L file candEnd (p - nonWsSuffixLen L file p) cand = (true, t)) :
    phase2 L file candEnd p cand = (t, [⟨file, p - nonWsSuffixLen L file p⟩]) := by
  simp only [phase2, hc]
  simp [h]

/-- Step 2 when the heuristic first probe fails: drop the probed byte and
run the binary search on the remainder. -/
lemma phase2_miss (L : Lexer) (file : Nat) (candEnd : Loc) (p : Nat) (cand : Token)
    (h : nonWsSuffixLen L file p ≠ 0)
    (hc : consider L file candEnd (p - nonWsSuffixLen L file p) cand = (false, cand)) :
    phase2 L file candEnd p cand =
      ((bsearchLoop L file candEnd (nonWsSuffixLen L file p - 1)
          (p - nonWsSuffixLen L file p + 1) (nonWsSuffixLen L file p - 1) cand).1,
       ⟨file, p - nonWsSuffixLen L file p⟩ ::
         (bsearchLoop L file candEnd (nonWsSuffixLen L file p - 1)
            (p - nonWsSuffixLen L file p + 1) (nonWsSuffixLen L file p - 1) cand).2) := by
  simp only [phase2, hc]
  simp [h]

/-- The binary-search loop, failed middle probe, stated with only the
first projection of the probe. -/
lemma bsearchLoop_succ_miss2 (L : Lexer) (file : Nat) (candEnd : Loc) (fuel lo len : Nat)
    (best : Token) (hlen : len ≠ 0)
    (hc : (consider L file candEnd (lo + len / 2) best).1 = false) :
    bsearchLoop L file candEnd (fuel + 1) lo len best =
      ((bsearchLoop L file candEnd fuel (lo + len / 2 + 1) (len - (len / 2 + 1)) best).1,
       ⟨file, lo + len / 2⟩ ::
         (bsearchLoop L file candEnd fuel (lo + len / 2 + 1) (len - (len / 2 + 1)) best).2) := by
  have h2 := consider_snd_of_miss L file candEnd (lo + len / 2) best hc
  exact bsearchLoop_succ_miss L file candEnd fuel lo len best hlen
    (Prod.ext_iff.mpr ⟨hc, h2⟩)

/-- The reverse step on a non-sentinel cursor whose step-1 loop stops:
the step-2 result is adopted and the logs concatenate. -/
lemma opDecLog_some (env : Nat → Lexer) (tu : Nat) (t : Token) (p : Nat) (cand : Token)
    (qs : List Loc) (h0 : t.tstart.off ≠ 0)
    (hsz : t.tstart.off < (env tu).fileSize t.tstart.file)
    (hp : phase1 (env tu) t.tstart.file t.tend t.tstart.off = (some (p, cand), qs)) :
    opDecLog env ⟨some (tu, t)⟩ =
      (some ⟨some (tu, (phase2 (env tu) t.tstart.file cand.tend p cand).1)⟩,
       qs ++ (phase2 (env tu) t.tstart.file cand.tend p cand).2) := by
  simp only [opDecLog]
  rw [if_neg h0, if_neg (by omega), hp]

/-! Lemmas about the query logs. -/

/-- Every location queried by the step-1 loop lies in the search file and
holds a non-whitespace byte. -/
lemma phase1_log_spec (L : Lexer) (file : Nat) (currEnd : Loc) :
    ∀ S, ∀ l ∈ (phase1 L file currEnd S).2,
      l.file = file ∧ L.ws l.file l.off = false := by
  intro S
  induction S with
  | zero =>
    intro l hl
    simp [phase1] at hl
  | succ o ih =>
    intro l hl
    by_cases hws : L.ws file o
    · rw [phase1_succ_ws L file currEnd o hws] at hl
      exact ih l hl
    · have hws' : L.ws file o = false := by simpa using hws
      cases htok : L.tokenAt ⟨file, o⟩ with
      | some t =>
        by_cases hend : t.tend = currEnd
        · rw [phase1_succ_cont L file currEnd o hws' (Or.inr ⟨t, htok, hend⟩)] at hl
          rcases List.mem_cons.mp hl with h | h
          · subst h
            exact ⟨rfl, hws'⟩
          · exact ih l h
        · rw [phase1_succ_stop L file currEnd o t hws' htok hend] at hl
          simp at hl
          subst hl
          exact ⟨rfl, hws'⟩
      | none =>
        rw [phase1_succ_cont L file currEnd o hws' (Or.inl htok)] at hl
        rcases List.mem_cons.mp hl with h | h
        · subst h
          exact ⟨rfl, hws'⟩
        · exact ih l h

/-- Every location queried by the binary-search loop lies in the search
file. -/
lemma bsearchLoop_log_spec (L : Lexer) (file : Nat) (candEnd : Loc) :
    ∀ fuel lo len best, ∀ l ∈ (bsearchLoop L file candEnd fuel lo len best).2,
      l.file = file := by
  intro fuel
  induction fuel with
  | zero =>
    intro lo len best l hl
    simp [bsearchLoop] at hl
  | succ n ih =>
    intro lo len best l hl
    by_cases hlen : len = 0
    · subst hlen
      rw [bsearchLoop_zero_len] at hl
      simp at hl
    · cases hc : (consider L file candEnd (lo + len / 2) best) with
      | mk b t2 =>
        cases b with
        | true =>
          rw [bsearchLoop_succ_hit L file candEnd n lo len best t2 hlen hc] at hl
          rcases List.mem_cons.mp hl with h | h
          · subst h
            rfl
          · exact ih _ _ _ l h
        | false =>
          rw [bsearchLoop_succ_miss2 L file candEnd n lo len best hlen (by rw [hc])] at hl
          have ht2 : t2 = best := by
            have := consider_snd_of_miss L file candEnd (lo + len / 2) best (by rw [hc])
            rw [hc] at this
            exact this
          rcases List.mem_cons.mp hl with h | h
          · subst h
            rfl
          · exact ih _ _ _ l h

/-- Every location queried by step 2 lies in the search file. -/
lemma phase2_log_spec (L : Lexer) (file : Nat) (candEnd : Loc) (p : Nat) (cand : Token) :
    ∀ l ∈ (phase2 L file candEnd p cand).2, l.file = file := by
  intro l hl
  by_cases h0 : nonWsSuffixLen L file p = 0
  · rw [phase2_empty L file candEnd p cand h0] at hl
    simp at hl
  · cases hc : (consider L file candEnd (p - nonWsSuffixLen L file p) cand) with
    | mk b t2 =>
      cases b with
      | true =>
        rw [phase2_hit L file candEnd p cand t2 h0 hc] at hl
        simp at hl
        subst hl
        rfl
      | false =>
        have ht2 : t2 = cand := by
          have := consider_snd_of_miss L file candEnd (p - nonWsSuffixLen L file p) cand
            (by rw [hc])
          rw [hc] at this
          exact this
        have hc2 : consider L file candEnd (p - nonWsSuffixLen L file p) cand =
            (false, cand) := by
          rw [hc, ht2]
        rw [phase2_miss L file candEnd p cand h0 hc2] at hl
        rcases List.mem_cons.mp hl with h | h
        · subst h
          rfl
        · exact bsearchLoop_log_spec L file candEnd _ _ _ _ l h

/-- Every location queried by a reverse step from a non-sentinel cursor
lies in the file of the current token's start location. -/
lemma opDecLog_log_spec (env : Nat → Lexer) (tu : Nat) (t : Token) :
    ∀ l ∈ (opDecLog env ⟨some (tu, t)⟩).2, l.file = t.tstart.file := by
  intro l hl
  simp only [opDecLog] at hl
  by_cases h0 : t.tstart.off = 0
  · rw [if_pos h0] at hl
    simp at hl
  · rw [if_neg h0] at hl
    by_cases hsz : (env tu).fileSize t.tstart.file ≤ t.tstart.off
    · rw [if_pos hsz] at hl
      simp at hl
    · rw [if_neg hsz] at hl
      cases hp : phase1 (env tu) t.tstart.file t.tend t.tstart.off with
      | mk r qs =>
        rw [hp] at hl
        cases r with
        | none =>
          have h1 := phase1_log_spec (env tu) t.tstart.file t.tend t.tstart.off l
          rw [hp] at h1
          exact (h1 hl).1
        | some pc =>
          rcases List.mem_append.mp hl with h | h
          · have h1 := phase1_log_spec (env tu) t.tstart.file t.tend t.tstart.off l
            rw [hp] at h1
            exact (h1 h).1
          · exact phase2_log_spec (env tu) t.tstart.file _ _ _ l h

/-- The reverse step on the sentinel: assertion failure, no query. -/
lemma opDecLog_sentinel (env : Nat → Lexer) : opDecLog env ⟨none⟩ = (none, []) := rfl

/-- The reverse step at start offset 0: assertion failure, no query. -/
lemma opDecLog_zero (env : Nat → Lexer) (tu : Nat) (t : Token)
    (h0 : t.tstart.off = 0) : opDecLog env ⟨some (tu, t)⟩ = (none, []) := by
  simp [opDecLog, h0]

/-- The reverse step with a start offset not below the file size:
assertion failure, no query. -/
lemma opDecLog_toobig (env : Nat → Lexer) (tu : Nat) (t : Token)
    (h0 : t.tstart.off ≠ 0)
    (hsz : (env tu).fileSize t.tstart.file ≤ t.tstart.off) :
    opDecLog env ⟨some (tu, t)⟩ = (none, []) := by
  simp [opDecLog, h0, hsz]

/-- The reverse step whose step-1 loop runs past offset 0: assertion
failure inside the loop. -/
lemma opDecLog_ph1fail (env : Nat → Lexer) (tu : Nat) (t : Token) (qs : List Loc)
    (h0 : t.tstart.off ≠ 0)
    (hsz : t.tstart.off < (env tu).fileSize t.tstart.file)
    (hp : phase1 (env tu) t.tstart.file t.tend t.tstart.off = (none, qs)) :
    opDecLog env ⟨some (tu, t)⟩ = (none, qs) := by
  simp only [opDecLog]
  rw [if_neg h0, if_neg (by omega), hp]

/-- A successful probe returns the token the oracle yielded at the
probed offset, and its end is the discriminator end. -/
lemma consider_fst_true (L : Lexer) (file : Nat) (candEnd : Loc) (q : Nat) (best t : Token)
    (h : consider L file candEnd q best = (true, t)) :
    L.tokenAt ⟨file, q⟩ = some t ∧ t.tend = candEnd := by
  cases hb : inTokB L file candEnd q with
  | false =>
    have h2 := (consider_of_inTokB L file candEnd q best).2 hb
    rw [h2] at h
    simp at h
  | true =>
    obtain ⟨u, hu, hue, hc⟩ := (consider_of_inTokB L file candEnd q best).1 hb
    rw [hc] at h
    have hut : u = t := by simpa using h
    subst hut
    exact ⟨hu, hue⟩

/-- Whatever the binary-search loop returns has the discriminator end
when the initial best candidate does: the best candidate is only ever
replaced by a token whose end equals the discriminator. -/
lemma bsearchLoop_tend (L : Lexer) (file : Nat) (candEnd : Loc) :
    ∀ fuel lo len best, best.tend = candEnd →
      (bsearchLoop L file candEnd fuel lo len best).1.tend = candEnd := by
  intro fuel
  induction fuel with
  | zero =>
    intro lo len best h
    simpa [bsearchLoop] using h
  | succ n ih =>
    intro lo len best h
    by_cases hlen : len = 0
    · subst hlen
      rw [bsearchLoop_zero_len]
      exact h
    · cases hc : consider L file candEnd (lo + len / 2) best with
      | mk b t2 =>
        cases b with
        | true =>
          rw [bsearchLoop_succ_hit L file candEnd n lo len best t2 hlen hc]
          exact ih _ _ _ (consider_fst_true L file candEnd _ best t2 hc).2
        | false =>
          rw [bsearchLoop_succ_miss2 L file candEnd n lo len best hlen (by rw [hc])]
          exact ih _ _ _ h

/-- The token adopted by step 2 has the discriminator end whenever the
step-1 candidate does. -/
lemma phase2_tend (L : Lexer) (file : Nat) (candEnd : Loc) (p : Nat) (cand : Token)
    (h : cand.tend = candEnd) :
    (phase2 L file candEnd p cand).1.tend = candEnd := by
  by_cases h0 : nonWsSuffixLen L file p = 0
  · rw [phase2_empty L file candEnd p cand h0]
    exact h
  · cases hc : consider L file candEnd (p - nonWsSuffixLen L file p) cand with
    | mk b t2 =>
      cases b with
      | true =>
        rw [phase2_hit L file candEnd p cand t2 h0 hc]
        exact (consider_fst_true L file candEnd _ cand t2 hc).2
      | false =>
        have ht2 : t2 = cand := by
          have := consider_snd_of_miss L file candEnd (p - nonWsSuffixLen L file p) cand
            (by rw [hc])
          rw [hc] at this
          exact this
        have hc2 : consider L file candEnd (p - nonWsSuffixLen L file p) cand =
            (false, cand) := by
          rw [hc, ht2]
        rw [phase2_miss L file candEnd p cand h0 hc2]
        exact bsearchLoop_tend L file candEnd _ _ _ cand h

/-! Claim theorems. -/

/-- C4: the equality operator returns true for two non-sentinel cursors
iff they share the same translation unit and the end locations of their
tokens' extents are equal; the end sentinel compares equal only to the
end sentinel, and a sentinel cursor never compares equal to a
non-sentinel cursor. -/
theorem iterEq_spec :
    (∀ (tua : Nat) (ta : Token) (tub : Nat) (tb : Token),
      iterEq ⟨some (tua, ta)⟩ ⟨some (tub, tb)⟩ = true ↔
        tua = tub ∧ ta.tend = tb.tend) ∧
    iterEq ⟨none⟩ ⟨none⟩ = true ∧
    (∀ (tua : Nat) (ta : Token),
      iterEq ⟨none⟩ ⟨some (tua, ta)⟩ = false ∧
      iterEq ⟨some (tua, ta)⟩ ⟨none⟩ = false) := by
  refine ⟨?_, rfl, ?_⟩
  · intro tua ta tub tb
    simp [iterEq]
  · intro tua ta
    exact ⟨rfl, rfl⟩

/-- C5: the forward step on a non-sentinel cursor queries the lexer once
at the end location of the current token's extent; a returned token is
adopted, and an absent result makes the cursor the end sentinel — the
end-of-stream case is not a failure (the step completes, no assertion
fires). -/
theorem opInc_spec :
    (∀ (env : Nat → Lexer) (tu : Nat) (t : Token),
      opIncLog env ⟨some (tu, t)⟩ =
        (some ⟨((env tu).tokenAt t.tend).map (fun t2 => (tu, t2))⟩, [t.tend])) ∧
    (∀ (env : Nat → Lexer) (tu : Nat) (t t2 : Token),
      (env tu).tokenAt t.tend = some t2 →
        opInc env ⟨some (tu, t)⟩ = some ⟨some (tu, t2)⟩) ∧
    (∀ (env : Nat → Lexer) (tu : Nat) (t : Token),
      (env tu).tokenAt t.tend = none →
        opInc env ⟨some (tu, t)⟩ = some ⟨none⟩) := by
  refine ⟨fun env tu t => rfl, ?_, ?_⟩
  · intro env tu t t2 h
    simp [opInc, opIncLog, h]
  · intro env tu t h
    simp [opInc, opIncLog, h]

/-- Witness for C5 on the concrete a-space-b lexer: stepping forward
from the first token adopts the second, and stepping forward from the
last token yields the end sentinel. -/
theorem opInc_spec_witness :
    opInc abEnv ⟨some (0, tokA)⟩ = some ⟨some (0, tokB)⟩ ∧
    opInc abEnv ⟨some (0, tokB)⟩ = some ⟨none⟩ :=
  ⟨opInc_spec.2.1 abEnv 0 tokA tokB (by decide),
   opInc_spec.2.2 abEnv 0 tokB (by decide)⟩

/-- C6: the reverse step halts (assertion failure, modelled as none) on
the end sentinel and when the current token's start offset is 0, and
under the preconditions every location it probes lies in the current
token's own file. -/
theorem opDec_preconditions :
    (∀ env : Nat → Lexer, opDecLog env ⟨none⟩ = (none, [])) ∧
    (∀ (env : Nat → Lexer) (tu : Nat) (t : Token),
      t.tstart.off = 0 → opDec env ⟨some (tu, t)⟩ = none) ∧
    (∀ (env : Nat → Lexer) (tu : Nat) (t : Token),
      ∀ l ∈ (opDecLog env ⟨some (tu, t)⟩).2, l.file = t.tstart.file) := by
  refine ⟨fun env => rfl, ?_, fun env tu t => opDecLog_log_spec env tu t⟩
  intro env tu t h0
  rw [opDec, opDecLog_zero env tu t h0]

/-- Witness for C6: the reverse step from the first token of the
a-space-b file (start offset 0) halts, and the probe the reverse step
from the second token makes lies in that token's file. -/
theorem opDec_preconditions_witness :
    opDec abEnv ⟨some (0, tokA)⟩ = none ∧
    (⟨0, 0⟩ : Loc).file = tokB.tstart.file :=
  ⟨opDec_preconditions.2.1 abEnv 0 tokA rfl,
   opDec_preconditions.2.2 abEnv 0 tokB ⟨0, 0⟩ (by decide)⟩

/-- C7: copy construction and copy assignment re-query the lexer at the
start location of the original's extent instead of aliasing the handle;
when the lexer yields a token with the same extent end there, the copy
compares equal to the original; copying the end sentinel yields the end
sentinel. -/
theorem copy_spec :
    (∀ env : Nat → Lexer,
      copyCtor env ⟨none⟩ = ⟨none⟩ ∧ ∀ it, copyAssign env it ⟨none⟩ = ⟨none⟩) ∧
    (∀ (env : Nat → Lexer) (tu : Nat) (t : Token),
      copyCtor env ⟨some (tu, t)⟩ =
        ⟨((env tu).tokenAt t.tstart).map (fun t2 => (tu, t2))⟩ ∧
      ∀ it, copyAssign env it ⟨some (tu, t)⟩ =
        ⟨((env tu).tokenAt t.tstart).map (fun t2 => (tu, t2))⟩) ∧
    (∀ (env : Nat → Lexer) (tu : Nat) (t t2 : Token),
      (env tu).tokenAt t.tstart = some t2 → t2.tend = t.tend →
        iterEq (copyCtor env ⟨some (tu, t)⟩) ⟨some (tu, t)⟩ = true ∧
        ∀ it, iterEq (copyAssign env it ⟨some (tu, t)⟩) ⟨some (tu, t)⟩ = true) := by
  refine ⟨fun env => ⟨rfl, fun it => rfl⟩, fun env tu t => ⟨rfl, fun it => rfl⟩, ?_⟩
  intro env tu t t2 hq he
  constructor
  · simp [copyCtor, clone, hq, iterEq, he]
  · intro it
    simp [copyAssign, clone, hq, iterEq, he]

/-- Witness for C7: copying the cursor at the first token of the
a-space-b file yields a cursor comparing equal to it. -/
theorem copy_spec_witness :
    iterEq (copyCtor abEnv ⟨some (0, tokA)⟩) ⟨some (0, tokA)⟩ = true ∧
    iterEq (copyAssign abEnv ⟨none⟩ ⟨some (0, tokA)⟩) ⟨some (0, tokA)⟩ = true :=
  ⟨(copy_spec.2.2 abEnv 0 tokA tokA (by decide) rfl).1,
   (copy_spec.2.2 abEnv 0 tokA tokA (by decide) rfl).2 ⟨none⟩⟩

/-- C8: a non-sentinel cursor bundles exactly one translation-unit
identity with its token, and a successful forward or reverse step leaves
that identity unchanged: the new token (when there is one) belongs to the
same translation unit. -/
theorem steps_keep_tu :
    ∀ (env : Nat → Lexer) (tu : Nat) (t : Token) (it2 : token_iterator),
      (opInc env ⟨some (tu, t)⟩ = some it2 →
        it2.m_tok = none ∨ ∃ t2, it2.m_tok = some (tu, t2)) ∧
      (opDec env ⟨some (tu, t)⟩ = some it2 →
        ∃ t2, it2.m_tok = some (tu, t2)) := by
  intro env tu t it2
  constructor
  · intro h
    have h2 : opInc env ⟨some (tu, t)⟩ =
        some ⟨((env tu).tokenAt t.tend).map (fun t2 => (tu, t2))⟩ := rfl
    rw [h2] at h
    have h3 := Option.some.inj h
    cases htok : (env tu).tokenAt t.tend with
    | none =>
      left
      rw [← h3, htok]
      rfl
    | some u =>
      right
      exact ⟨u, by rw [← h3, htok]; rfl⟩
  · intro h
    rw [opDec] at h
    by_cases h0 : t.tstart.off = 0
    · rw [opDecLog_zero env tu t h0] at h
      simp at h
    · by_cases hsz : (env tu).fileSize t.tstart.file ≤ t.tstart.off
      · rw [opDecLog_toobig env tu t h0 hsz] at h
        simp at h
      · cases hp : phase1 (env tu) t.tstart.file t.tend t.tstart.off with
        | mk r qs =>
          cases r with
          | none =>
            rw [opDecLog_ph1fail env tu t qs h0 (by omega) hp] at h
            simp at h
          | some pc =>
            obtain ⟨p, cand⟩ := pc
            rw [opDecLog_some env tu t p cand qs h0 (by omega) hp] at h
            have h3 := Option.some.inj h
            exact ⟨(phase2 (env tu) t.tstart.file cand.tend p cand).1, by rw [← h3]⟩

/-- Witness for C8: both steps from the middle token of the scenario
lexer keep translation unit 0. -/
theorem steps_keep_tu_witness :
    ((⟨some (0, s2b)⟩ : token_iterator).m_tok = none ∨
      ∃ t2, (⟨some (0, s2b)⟩ : token_iterator).m_tok = some (0, t2)) ∧
    (∃ t2, (⟨some (0, s2a)⟩ : token_iterator).m_tok = some (0, t2)) :=
  ⟨(steps_keep_tu s2Env 0 s2plus ⟨some (0, s2b)⟩).1 (by decide),
   (steps_keep_tu s2Env 0 s2plus ⟨some (0, s2a)⟩).2 (by decide)⟩

/-- C9: on the scenario file a, space, space, plus, space, space, b, a
cursor at the last token retreats to the plus token and then to the
first token, and each reverse step issues at most two oracle queries
thanks to the whitespace fast path. -/
theorem scenario_s2 :
    opDec s2Env (mkTokenIterator s2Env 0 ⟨0, 6⟩) = some ⟨some (0, s2plus)⟩ ∧
    (opDecLog s2Env (mkTokenIterator s2Env 0 ⟨0, 6⟩)).2.length ≤ 2 ∧
    opDec s2Env ⟨some (0, s2plus)⟩ = some ⟨some (0, s2a)⟩ ∧
    (opDecLog s2Env ⟨some (0, s2plus)⟩).2.length ≤ 2 := by
  decide

/-- C10: self copy-assignment of a non-sentinel cursor, given that the
lexer re-yields a token with the same extent end at the start location,
leaves the observable state unchanged: still non-sentinel, same
translation unit, same extent end, and equal to the prior value. -/
theorem self_assign_frame :
    ∀ (env : Nat → Lexer) (tu : Nat) (t t2 : Token),
      (env tu).tokenAt t.tstart = some t2 → t2.tend = t.tend →
        (copyAssign env ⟨some (tu, t)⟩ ⟨some (tu, t)⟩).m_tok = some (tu, t2) ∧
        is_end_sentinel (copyAssign env ⟨some (tu, t)⟩ ⟨some (tu, t)⟩) = false ∧
        iterEq (copyAssign env ⟨some (tu, t)⟩ ⟨some (tu, t)⟩) ⟨some (tu, t)⟩ = true := by
  intro env tu t t2 hq he
  refine ⟨?_, ?_, ?_⟩ <;> simp [copyAssign, clone, hq, is_end_sentinel, iterEq, he]

/-- Witness for C10: self-assigning the cursor at the second token of
the a-space-b file keeps it intact. -/
theorem self_assign_frame_witness :
    (copyAssign abEnv ⟨some (0, tokB)⟩ ⟨some (0, tokB)⟩).m_tok = some (0, tokB) ∧
    is_end_sentinel (copyAssign abEnv ⟨some (0, tokB)⟩ ⟨some (0, tokB)⟩) = false ∧
    iterEq (copyAssign abEnv ⟨some (0, tokB)⟩ ⟨some (0, tokB)⟩) ⟨some (0, tokB)⟩ = true :=
  self_assign_frame abEnv 0 tokB tokB (by decide) rfl

/-! Shared lemmas for the reverse-step claims. -/

/-- The shape of the step-1 scan: if every offset strictly between the
stopping point and the start is skippable (whitespace, no token, or a
token still ending at the current end) and the stopping point holds a
non-whitespace byte whose token ends elsewhere, the loop stops exactly
there with exactly that token. -/
lemma phase1_scan_aux (L : Lexer) (file : Nat) (currEnd : Loc) :
    ∀ (S p : Nat) (t : Token),
      p < S →
      L.ws file p = false →
      L.tokenAt ⟨file, p⟩ = some t →
      t.tend ≠ currEnd →
      (∀ q, q < S → p < q →
        L.ws file q = true ∨ L.tokenAt ⟨file, q⟩ = none ∨
          inTokB L file currEnd q = true) →
      (phase1 L file currEnd S).1 = some (p, t) := by
  intro S
  induction S with
  | zero =>
    intro p t hp
    exact absurd hp (Nat.not_lt_zero p)
  | succ o ih =>
    intro p t hp hws htok hne hskip
    by_cases hpo : p = o
    · subst hpo
      rw [phase1_succ_stop L file currEnd p t hws htok hne]
    · have hpo2 : p < o := by omega
      by_cases hwso : L.ws file o
      · rw [phase1_succ_ws L file currEnd o hwso]
        exact ih p t hpo2 hws htok hne (fun q h1 h2 => hskip q (by omega) h2)
      · have hwso2 : L.ws file o = false := by simpa using hwso
        have hcont : L.tokenAt ⟨file, o⟩ = none ∨
            ∃ u, L.tokenAt ⟨file, o⟩ = some u ∧ u.tend = currEnd := by
          rcases hskip o (by omega) (by omega) with h | h | h
          · rw [hwso2] at h
            simp at h
          · exact Or.inl h
          · obtain ⟨u, hu, hue, _⟩ := (consider_of_inTokB L file currEnd o t).1 h
            exact Or.inr ⟨u, hu, hue⟩
        rw [phase1_succ_cont L file currEnd o hwso2 hcont]
        exact ih p t hpo2 hws htok hne (fun q h1 h2 => hskip q (by omega) h2)

/-- Soundness of the step-1 result: the stopping offset is below the
start, the oracle yields the recorded token there, and that token's end
differs from the current end. -/
lemma phase1_stop_sound (L : Lexer) (file : Nat) (currEnd : Loc) :
    ∀ (S p : Nat) (cand : Token),
      (phase1 L file currEnd S).1 = some (p, cand) →
      p < S ∧ L.tokenAt ⟨file, p⟩ = some cand ∧ cand.tend ≠ currEnd := by
  intro S
  induction S with
  | zero =>
    intro p cand h
    simp [phase1] at h
  | succ o ih =>
    intro p cand h
    by_cases hws : L.ws file o
    · rw [phase1_succ_ws L file currEnd o hws] at h
      obtain ⟨h1, h2⟩ := ih p cand h
      exact ⟨by omega, h2⟩
    · have hws2 : L.ws file o = false := by simpa using hws
      cases htok : L.tokenAt ⟨file, o⟩ with
      | some u =>
        by_cases hend : u.tend = currEnd
        · rw [phase1_succ_cont L file currEnd o hws2 (Or.inr ⟨u, htok, hend⟩)] at h
          obtain ⟨h1, h2⟩ := ih p cand h
          exact ⟨by omega, h2⟩
        · rw [phase1_succ_stop L file currEnd o u hws2 htok hend] at h
          have h2 := Option.some.inj h
          have hop : o = p := congrArg Prod.fst h2
          have hu : u = cand := congrArg Prod.snd h2
          subst hop
          subst hu
          exact ⟨Nat.lt_succ_self o, htok, hend⟩
      | none =>
        rw [phase1_succ_cont L file currEnd o hws2 (Or.inl htok)] at h
        obtain ⟨h1, h2⟩ := ih p cand h
        exact ⟨by omega, h2⟩

/-- The non-whitespace suffix of a prefix is no longer than the prefix. -/
lemma nonWsSuffixLen_le (L : Lexer) (file : Nat) : ∀ p, nonWsSuffixLen L file p ≤ p := by
  intro p
  induction p with
  | zero => simp [nonWsSuffixLen]
  | succ o ih =>
    rw [nonWsSuffixLen]
    by_cases h : L.ws file o
    · rw [if_pos h]
      omega
    · rw [if_neg h]
      omega

/-- Correctness of the binary-search loop: with the membership predicate
upward closed on offsets up to p, every offset left of lo known to fail,
and the best candidate already being the token at the least member
whenever the least member lies at or right of the interval, the loop
returns the token the oracle yields at the least member. -/
lemma bsearchLoop_finds_least (L : Lexer) (file : Nat) (candEnd : Loc) (p qmin : Nat)
    (hmono : ∀ r2, r2 ≤ p → ∀ q2, q2 ≤ r2 →
      inTokB L file candEnd q2 = true → inTokB L file candEnd r2 = true)
    (hqmin : inTokB L file candEnd qmin = true)
    (hqleast : ∀ q2, q2 < qmin → inTokB L file candEnd q2 = false) :
    ∀ fuel lo len best,
      len ≤ fuel →
      lo + len ≤ p + 1 →
      (∀ q2, q2 < lo → inTokB L file candEnd q2 = false) →
      (lo + len ≤ qmin → L.tokenAt ⟨file, qmin⟩ = some best) →
      L.tokenAt ⟨file, qmin⟩ = some (bsearchLoop L file candEnd fuel lo len best).1 := by
  have hge : ∀ lo2 : Nat, (∀ q2, q2 < lo2 → inTokB L file candEnd q2 = false) →
      lo2 ≤ qmin := by
    intro lo2 hl
    by_contra hcon
    push_neg at hcon
    rw [hl qmin hcon] at hqmin
    simp at hqmin
  intro fuel
  induction fuel with
  | zero =>
    intro lo len best hlf hlp hlow hbest
    have hlen : len = 0 := by omega
    subst hlen
    rw [bsearchLoop_zero_len]
    exact hbest (by have := hge lo hlow; omega)
  | succ n ih =>
    intro lo len best hlf hlp hlow hbest
    by_cases hlen : len = 0
    · subst hlen
      rw [bsearchLoop_zero_len]
      exact hbest (by have := hge lo hlow; omega)
    · cases hb : inTokB L file candEnd (lo + len / 2) with
      | true =>
        obtain ⟨u, hu, hue, hc⟩ := (consider_of_inTokB L file candEnd (lo + len / 2) best).1 hb
        rw [bsearchLoop_succ_hit L file candEnd n lo len best u hlen hc]
        have hqm : qmin ≤ lo + len / 2 := by
          by_contra hcon
          push_neg at hcon
          rw [hqleast (lo + len / 2) hcon] at hb
          simp at hb
        refine ih lo (len / 2) u (by omega) (by omega) hlow ?_
        intro h2
        have hq : qmin = lo + len / 2 := by omega
        rw [hq]
        exact hu
      | false =>
        have hc := (consider_of_inTokB L file candEnd (lo + len / 2) best).2 hb
        rw [bsearchLoop_succ_miss L file candEnd n lo len best hlen hc]
        have hlow2 : ∀ q2, q2 < lo + len / 2 + 1 → inTokB L file candEnd q2 = false := by
          intro q2 hq2
          by_cases hq2lo : q2 < lo
          · exact hlow q2 hq2lo
          · cases hqb : inTokB L file candEnd q2 with
            | false => rfl
            | true =>
              have hmm := hmono (lo + len / 2) (by omega) q2 (by omega) hqb
              rw [hmm] at hb
              simp at hb
        refine ih (lo + len / 2 + 1) (len - (len / 2 + 1)) best (by omega) (by omega)
          hlow2 ?_
        intro h2
        exact hbest (by omega)

/-- Correctness of step 2: with the membership predicate upward closed up
to the witness offset p, failing strictly below the start w of the
non-whitespace suffix, and the oracle yielding the step-1 candidate at p,
step 2 adopts the token the oracle yields at the least offset satisfying
the predicate. -/
lemma phase2_finds_least (L : Lexer) (file : Nat) (p qmin : Nat) (cand : Token)
    (hcand : L.tokenAt ⟨file, p⟩ = some cand)
    (hmono : ∀ r2, r2 ≤ p → ∀ q2, q2 ≤ r2 →
      inTokB L file cand.tend q2 = true → inTokB L file cand.tend r2 = true)
    (hlow : ∀ q2, q2 < p - nonWsSuffixLen L file p →
      inTokB L file cand.tend q2 = false)
    (hqmin : inTokB L file cand.tend qmin = true)
    (hqleast : ∀ q2, q2 < qmin → inTokB L file cand.tend q2 = false) :
    L.tokenAt ⟨file, qmin⟩ = some (phase2 L file cand.tend p cand).1 := by
  have hwle : nonWsSuffixLen L file p ≤ p := nonWsSuffixLen_le L file p
  have hpredp : inTokB L file cand.tend p = true := by
    unfold inTokB
    rw [hcand]
    simp
  have hqp : qmin ≤ p := by
    by_contra hcon
    push_neg at hcon
    rw [hqleast p hcon] at hpredp
    simp at hpredp
  have hqw : p - nonWsSuffixLen L file p ≤ qmin := by
    by_contra hcon
    push_neg at hcon
    rw [hlow qmin hcon] at hqmin
    simp at hqmin
  by_cases h0 : nonWsSuffixLen L file p = 0
  · rw [phase2_empty L file cand.tend p cand h0]
    have hq : qmin = p := by omega
    rw [hq]
    exact hcand
  · cases hb : inTokB L file cand.tend (p - nonWsSuffixLen L file p) with
    | true =>
      obtain ⟨u, hu, hue, hc⟩ :=
        (consider_of_inTokB L file cand.tend (p - nonWsSuffixLen L file p) cand).1 hb
      rw [phase2_hit L file cand.tend p cand u h0 hc]
      have hqm : qmin ≤ p - nonWsSuffixLen L file p := by
        by_contra hcon
        push_neg at hcon
        rw [hqleast (p - nonWsSuffixLen L file p) hcon] at hb
        simp at hb
      have hq : qmin = p - nonWsSuffixLen L file p := by omega
      rw [hq]
      exact hu
    | false =>
      have hc := (consider_of_inTokB L file cand.tend (p - nonWsSuffixLen L file p) cand).2 hb
      rw [phase2_miss L file cand.tend p cand h0 hc]
      refine bsearchLoop_finds_least L file cand.tend p qmin hmono hqmin hqleast
        (nonWsSuffixLen L file p - 1) (p - nonWsSuffixLen L file p + 1)
        (nonWsSuffixLen L file p - 1) cand (by omega) (by omega) ?_ ?_
      · intro q2 hq2
        by_cases hq2w : q2 < p - nonWsSuffixLen L file p
        · exact hlow q2 hq2w
        · have hq2e : q2 = p - nonWsSuffixLen L file p := by omega
          rw [hq2e]
          exact hb
      · intro h2
        have hq : qmin = p := by omega
        rw [hq]
        exact hcand

/-- C3: during a reverse step, the step-1 loop starts one below the
current token's start offset, skips whitespace bytes without querying
(every logged query is at a non-whitespace byte), keeps decrementing
whenever the oracle returns no token or a token whose end equals the
current end, and stops at the first candidate whose end differs,
recording that token. -/
theorem phase1_scan_spec :
    ∀ (env : Nat → Lexer) (tu : Nat) (t : Token) (p : Nat) (tprev : Token),
      p < t.tstart.off →
      (env tu).ws t.tstart.file p = false →
      (env tu).tokenAt ⟨t.tstart.file, p⟩ = some tprev →
      tprev.tend ≠ t.tend →
      (∀ q, q < t.tstart.off → p < q →
        (env tu).ws t.tstart.file q = true ∨
        (env tu).tokenAt ⟨t.tstart.file, q⟩ = none ∨
        inTokB (env tu) t.tstart.file t.tend q = true) →
      (phase1 (env tu) t.tstart.file t.tend t.tstart.off).1 = some (p, tprev) ∧
      ∀ l ∈ (phase1 (env tu) t.tstart.file t.tend t.tstart.off).2,
        (env tu).ws l.file l.off = false := by
  intro env tu t p tprev hp hws htok hne hskip
  exact ⟨phase1_scan_aux (env tu) t.tstart.file t.tend t.tstart.off p tprev
      hp hws htok hne hskip,
    fun l hl => (phase1_log_spec (env tu) t.tstart.file t.tend t.tstart.off l hl).2⟩

/-- Witness for C3 on the scenario lexer: the step-1 scan from the last
token stops at the plus token, and the single logged query is at a
non-whitespace byte. -/
theorem phase1_scan_spec_witness :
    (phase1 s2Lexer 0 ⟨0, 7⟩ 6).1 = some (3, s2plus) ∧
    s2Lexer.ws (⟨0, 3⟩ : Loc).file (⟨0, 3⟩ : Loc).off = false :=
  ⟨(phase1_scan_spec s2Env 0 s2b 3 s2plus (by decide) (by decide) (by decide) (by decide)
      (by decide)).1,
   (phase1_scan_spec s2Env 0 s2b 3 s2plus (by decide) (by decide) (by decide) (by decide)
      (by decide)).2 ⟨0, 3⟩ (by decide)⟩

/-- C2: once step 1 has recorded the witness offset p with candidate
token cand (whose end is the discriminator cand_end), and membership
(the oracle yielding a token ending at cand_end) is upward closed up to
p and fails below the start of the non-whitespace suffix, the first
probe plus the binary search make the reverse step adopt the token the
oracle yields at the smallest offset qmin at or below p satisfying the
membership predicate; the best candidate found when the interval empties
is what is adopted. -/
theorem opDec_adopts_least :
    ∀ (env : Nat → Lexer) (tu : Nat) (t : Token) (p qmin : Nat) (cand : Token)
      (qs : List Loc),
      t.tstart.off ≠ 0 →
      t.tstart.off < (env tu).fileSize t.tstart.file →
      phase1 (env tu) t.tstart.file t.tend t.tstart.off = (some (p, cand), qs) →
      (∀ r2, r2 ≤ p → ∀ q2, q2 ≤ r2 →
        inTokB (env tu) t.tstart.file cand.tend q2 = true →
        inTokB (env tu) t.tstart.file cand.tend r2 = true) →
      (∀ q2, q2 < p - nonWsSuffixLen (env tu) t.tstart.file p →
        inTokB (env tu) t.tstart.file cand.tend q2 = false) →
      inTokB (env tu) t.tstart.file cand.tend qmin = true →
      (∀ q2, q2 < qmin → inTokB (env tu) t.tstart.file cand.tend q2 = false) →
      ∃ u, (env tu).tokenAt ⟨t.tstart.file, qmin⟩ = some u ∧
        opDec env ⟨some (tu, t)⟩ = some ⟨some (tu, u)⟩ := by
  intro env tu t p qmin cand qs h0 hsz hp hmono hlow hqmin hqleast
  have hp1 : (phase1 (env tu) t.tstart.file t.tend t.tstart.off).1 = some (p, cand) := by
    rw [hp]
  have hcand := (phase1_stop_sound (env tu) t.tstart.file t.tend t.tstart.off p cand hp1).2.1
  refine ⟨(phase2 (env tu) t.tstart.file cand.tend p cand).1,
    phase2_finds_least (env tu) t.tstart.file p qmin cand hcand hmono hlow hqmin hqleast, ?_⟩
  rw [opDec, opDecLog_some env tu t p cand qs h0 hsz hp]

/-- Witness for C2 on the a-space-b lexer: the reverse step from the
second token adopts the token the oracle yields at offset 0, the least
offset whose token ends at the discriminator. -/
theorem opDec_adopts_least_witness :
    ∃ u, abLexer.tokenAt ⟨0, 0⟩ = some u ∧
      opDec abEnv ⟨some (0, tokB)⟩ = some ⟨some (0, u)⟩ :=
  opDec_adopts_least abEnv 0 tokB 0 0 tokA [⟨0, 0⟩] (by decide) (by decide) (by decide)
    (by decide) (by decide) (by decide) (by decide)

/-- C1: for a non-first token, under the lexer contract — the oracle
yields the token itself at its start, a previous token is reachable by
the step-1 scan, and the oracle at the previous token's end yields a
token ending at the current end — constructing a cursor at the token's
start, stepping backward and then forward yields a cursor equal to the
original. -/
theorem round_trip :
    ∀ (env : Nat → Lexer) (tu : Nat) (t tprev nt : Token) (p : Nat),
      (env tu).tokenAt t.tstart = some t →
      t.tstart.off ≠ 0 →
      t.tstart.off < (env tu).fileSize t.tstart.file →
      p < t.tstart.off →
      (env tu).ws t.tstart.file p = false →
      (env tu).tokenAt ⟨t.tstart.file, p⟩ = some tprev →
      tprev.tend ≠ t.tend →
      (∀ q, q < t.tstart.off → p < q →
        (env tu).ws t.tstart.file q = true ∨
        (env tu).tokenAt ⟨t.tstart.file, q⟩ = none ∨
        inTokB (env tu) t.tstart.file t.tend q = true) →
      (env tu).tokenAt tprev.tend = some nt →
      nt.tend = t.tend →
      ∃ it1 it2,
        opDec env (mkTokenIterator env tu t.tstart) = some it1 ∧
        opInc env it1 = some it2 ∧
        iterEq it2 (mkTokenIterator env tu t.tstart) = true := by
  intro env tu t tprev nt p hself h0 hsz hp hws htok hne hskip hnt hnte
  have hmk : mkTokenIterator env tu t.tstart = ⟨some (tu, t)⟩ := by
    simp [mkTokenIterator, hself]
  have hph1 : (phase1 (env tu) t.tstart.file t.tend t.tstart.off).1 = some (p, tprev) :=
    phase1_scan_aux (env tu) t.tstart.file t.tend t.tstart.off p tprev hp hws htok hne hskip
  have hpair : phase1 (env tu) t.tstart.file t.tend t.tstart.off =
      (some (p, tprev), (phase1 (env tu) t.tstart.file t.tend t.tstart.off).2) := by
    rw [← hph1]
  have hdec := opDecLog_some env tu t p tprev
    ((phase1 (env tu) t.tstart.file t.tend t.tstart.off).2) h0 hsz hpair
  have htend : (phase2 (env tu) t.tstart.file tprev.tend p tprev).1.tend = tprev.tend :=
    phase2_tend (env tu) t.tstart.file tprev.tend p tprev rfl
  refine ⟨⟨some (tu, (phase2 (env tu) t.tstart.file tprev.tend p tprev).1)⟩,
    ⟨some (tu, nt)⟩, ?_, ?_, ?_⟩
  · rw [hmk, opDec, hdec]
  · have h4 : opInc env ⟨some (tu, (phase2 (env tu) t.tstart.file tprev.tend p tprev).1)⟩ =
        some ⟨((env tu).tokenAt
          (phase2 (env tu) t.tstart.file tprev.tend p tprev).1.tend).map
            (fun t2 => (tu, t2))⟩ := rfl
    rw [h4, htend, hnt]
    rfl
  · rw [hmk]
    simp [iterEq, hnte]

/-- Witness for C1 on the a-space-b lexer: from the second token, one
reverse step and one forward step return to a cursor equal to the
original. -/
theorem round_trip_witness :
    ∃ it1 it2,
      opDec abEnv (mkTokenIterator abEnv 0 tokB.tstart) = some it1 ∧
      opInc abEnv it1 = some it2 ∧
      iterEq it2 (mkTokenIterator abEnv 0 tokB.tstart) = true :=
  round_trip abEnv 0 tokB tokA tokB 0 (by decide) (by decide) (by decide) (by decide)
    (by decide) (by decide) (by decide) (by decide) (by decide) rfl
